import Mathlib

/-!
# Verification of the stock-predictor market-data synchronization layer

This file gives a shallow embedding, in Lean 4, of the core logic of the
`stock-predictor` repository (`backend/main.py` and
`data_pipeline/fetch_data.py`) and proves properties about it.

Modelling conventions:

* Calendar dates are natural numbers counting days since 1970-01-01
  (`toEpochDay` converts a year/month/day triple).  Python's
  `date.weekday()` (Monday = 0) becomes `pythonWeekday`.
* The PostgreSQL tables `stocks` and `stock_prices` become lists of
  records (`Stock`, `PriceRow`) inside a `DB` structure; SQL
  `ON CONFLICT ... DO NOTHING` becomes `insertIfAbsent`, and
  `ON CONFLICT (symbol) DO UPDATE` becomes `upsertStock`.
* `NUMERIC` price columns become rationals.  A possibly-NaN/missing
  pandas `Volume` cell becomes `Option Int` (`none` = NaN/missing); the
  durable store's `BIGINT volume` column is a plain `Int`, so a NaN can
  never be stored by construction.
* A fallible upstream call (`fn()` that may raise) becomes a function
  returning `Option`; `none` models a raised exception / failed call.
* Wall-clock instants (`time.time()`) and sleep durations become
  rationals, passed explicitly.
-/

/-- A stock row of the `stocks` table: `id SERIAL`, `symbol` (unique),
`company_name`. -/
structure Stock where
  id : Nat
  symbol : String
  companyName : String
  deriving DecidableEq, Repr

/-- A row of the `stock_prices` table:
`(stock_id, date, open, high, low, close, volume)` with the uniqueness
constraint `UNIQUE(stock_id, date)`. -/
structure PriceRow where
  stockId : Nat
  date : Nat
  openP : Rat
  highP : Rat
  lowP : Rat
  closeP : Rat
  volume : Int
  deriving DecidableEq, Repr

/-- A row of a fetched pandas DataFrame, as consumed by `_store_history` /
`store_stock_data`: index date plus OHLCV columns, where the `Volume`
cell may be NaN/missing (`none`). -/
structure FetchRow where
  date : Nat
  openP : Rat
  highP : Rat
  lowP : Rat
  closeP : Rat
  volume : Option Int
  deriving DecidableEq, Repr

/-- The durable store: the `stocks` and `stock_prices` tables. -/
structure DB where
  stocks : List Stock
  prices : List PriceRow
  deriving DecidableEq, Repr

/- ------------------------------------------------------------------ -/
/- Calendar dates (days since 1970-01-01)                              -/
/- ------------------------------------------------------------------ -/

/-- Gregorian leap-year test. -/
def isLeap (y : Nat) : Bool :=
  (y % 4 == 0 && y % 100 != 0) || y % 400 == 0

/-- Days in a Gregorian year. -/
def daysInYear (y : Nat) : Nat := if isLeap y then 366 else 365

/-- Days in month `m` (1-12) of year `y`. -/
def daysInMonth (y m : Nat) : Nat :=
  if m == 2 then (if isLeap y then 29 else 28)
  else if m == 4 || m == 6 || m == 9 || m == 11 then 30
  else 31

/-- Days since 1970-01-01 of the calendar date `y-m-d` (for `y ≥ 1970`,
`1 ≤ m ≤ 12`, `1 ≤ d`). -/
def toEpochDay (y m d : Nat) : Nat :=
  (List.range (y - 1970)).foldl (fun acc i => acc + daysInYear (1970 + i)) 0
    + (List.range (m - 1)).foldl (fun acc i => acc + daysInMonth y (i + 1)) 0
    + (d - 1)

/-- Python's `date.weekday()`: Monday = 0 … Sunday = 6
(1970-01-01 was a Thursday, weekday 3). -/
def pythonWeekday (d : Nat) : Nat := (d + 3) % 7

/-- A trading weekday in the spec's calendar-only approximation:
Monday through Friday. -/
def isTradingWeekday (d : Nat) : Bool := pythonWeekday d < 5

/-- ASCII uppercase of one character (Python's `str.upper()` on the
ASCII ticker/term strings this system handles). -/
def upperChar (c : Char) : Char :=
  if 'a' ≤ c ∧ c ≤ 'z' then Char.ofNat (c.toNat - 32) else c

/-- `s.upper()` for ASCII strings. -/
def upperStr (s : String) : String := ⟨s.data.map upperChar⟩

/- ------------------------------------------------------------------ -/
/- Backoff executor (`_with_backoff` in backend/main.py and            -/
/- data_pipeline/fetch_data.py)                                        -/
/- ------------------------------------------------------------------ -/

/-- One run of the loop body of `_with_backoff`, starting at attempt
index `i` with `rem` loop iterations remaining (`rem = retries - i`).
The wrapped operation `op` maps the attempt index to `some` result
(successful return of `fn()`) or `none` (an exception was raised).
Returns `(result, number of invocations of op, list of backoff sleeps)`.
Mirrors:
```
for i in range(retries):
    try:
        _rate_limit_wait()
        return fn()
    except Exception:
        if i == retries - 1:
            return None
        time.sleep(base * (2 ** i))
```
(the rate-limiter wait composed before each attempt is not part of the
backoff sleep schedule and is not modelled here). -/
def withBackoffAux (op : Nat → Option α) (base : Rat) :
    Nat → Nat → Option α × Nat × List Rat
  | _, 0 => (none, 0, [])
  | i, rem + 1 =>
    match op i with
    | some a => (some a, 1, [])
    | none =>
      if rem = 0 then (none, 1, [])
      else
        let r := withBackoffAux op base (i + 1) rem
        (r.1, r.2.1 + 1, base * 2 ^ i :: r.2.2)

/-- `_with_backoff(fn, retries, base)`: run `op` up to `retries` times,
sleeping `base * 2^i` after failed attempt `i` (except the last), and
return `none` after the final failure instead of raising. -/
def withBackoff (op : Nat → Option α) (retries : Nat) (base : Rat) :
    Option α × Nat × List Rat :=
  withBackoffAux op base 0 retries

/- ------------------------------------------------------------------ -/
/- Live quote cache (`_get_cached` / `_set_cached`)                    -/
/- ------------------------------------------------------------------ -/

/-- `_set_cached(symbol, data)`: `_LIVE_CACHE[symbol] = (time.time(), data)`,
an unconditional overwrite of the dict entry. The cache is modelled as an
association list from symbol to `(capture timestamp, data)`. -/
def cacheSet (c : List (String × Rat × α)) (sym : String) (now : Rat)
    (data : α) : List (String × Rat × α) :=
  (sym, now, data) :: c.filter (fun e => !(e.1 == sym))

/-- `_get_cached(symbol)` at wall-clock `now` with time-to-live `ttl`:
absent if missing; if present and `now - ts <= LIVE_TTL_SEC` return the
data unchanged; otherwise pop the entry (lazy eviction) and return
absent.  Returns the result together with the cache after the call. -/
def cacheGet (c : List (String × Rat × α)) (sym : String) (now ttl : Rat) :
    Option α × List (String × Rat × α) :=
  match c.find? (fun e => e.1 == sym) with
  | none => (none, c)
  | some e =>
    if now - e.2.1 ≤ ttl then (some e.2.2, c)
    else (none, c.filter (fun e => !(e.1 == sym)))

/- ------------------------------------------------------------------ -/
/- Durable store operations (`_store_history` / `store_stock_data`)    -/
/- ------------------------------------------------------------------ -/

/-- The conflict key of a price row: `(stock_id, date)`, the unique
constraint of `stock_prices`. -/
def keyOf (r : PriceRow) : Nat × Nat := (r.stockId, r.date)

/-- Does the table already hold a row with conflict key `k`? -/
def hasKey (l : List PriceRow) (k : Nat × Nat) : Bool :=
  l.any (fun r => keyOf r == k)

/-- `INSERT INTO stock_prices ... ON CONFLICT (stock_id, date) DO NOTHING`
for a single row: a no-op when a row with the same `(stock_id, date)`
already exists, otherwise an append. -/
def insertIfAbsent (l : List PriceRow) (r : PriceRow) : List PriceRow :=
  if hasKey l (keyOf r) then l else l ++ [r]

/-- `cur.executemany` of the insert-if-absent statement over a row list. -/
def insertRows (l : List PriceRow) (rows : List PriceRow) : List PriceRow :=
  rows.foldl insertIfAbsent l

/-- The row stored under conflict key `k` (the first one in table
order, which is unique under the table's constraint). -/
def lookupKey (l : List PriceRow) (k : Nat × Nat) : Option PriceRow :=
  l.find? (fun r => keyOf r == k)

/-- How many rows of the table carry conflict key `k`. -/
def countKey (l : List PriceRow) (k : Nat × Nat) : Nat :=
  (l.filter (fun r => keyOf r == k)).length

/-- Fresh `SERIAL` id for a new `stocks` row. -/
def freshId (stocks : List Stock) : Nat :=
  stocks.foldr (fun s m => max s.id m) 0 + 1

/-- `INSERT INTO stocks (symbol, company_name) VALUES (...)
ON CONFLICT (symbol) DO UPDATE SET company_name = EXCLUDED.company_name
RETURNING id`: update the display name in place when the symbol exists
(returning its id), otherwise append a fresh row. -/
def upsertStock (stocks : List Stock) (sym name : String) :
    List Stock × Nat :=
  match stocks.find? (fun s => s.symbol == sym) with
  | some s =>
    (stocks.map (fun t => if t.symbol == sym then
        { t with companyName := name } else t), s.id)
  | none =>
    let i := freshId stocks
    (stocks ++ [⟨i, sym, name⟩], i)

/-- The row tuple built by `_store_history` / `store_stock_data` from a
DataFrame row: `int(row["Volume"]) if not pd.isna(row["Volume"]) else 0`
coerces a NaN/missing volume to `0`. -/
def mkPriceRow (stockId : Nat) (fr : FetchRow) : PriceRow :=
  ⟨stockId, fr.date, fr.openP, fr.highP, fr.lowP, fr.closeP,
    fr.volume.getD 0⟩

/-- `_store_history(symbol, company_name, df, conn)` (and identically
`store_stock_data`): return unchanged on an empty frame; otherwise
upsert the stock row, then insert each price row with insert-if-absent
semantics. -/
def storeHistory (sym name : String) (rows : List FetchRow) (db : DB) :
    DB :=
  if rows.isEmpty then db
  else
    let u := upsertStock db.stocks sym name
    ⟨u.1, insertRows db.prices (rows.map (mkPriceRow u.2))⟩

/-- SQL `MAX(date)` aggregation over a set of price rows (`NULL`,
i.e. `none`, on the empty set). -/
def maxDate : List PriceRow → Option Nat
  | [] => none
  | r :: rs =>
    match maxDate rs with
    | none => some r.date
    | some m => some (max r.date m)

/-- `_get_latest_date(symbol, conn)`: look up the stock id for `symbol`;
if absent return `none`, else `MAX(date)` over its price rows — the
symbol's watermark. -/
def getLatestDate (sym : String) (db : DB) : Option Nat :=
  match db.stocks.find? (fun s => s.symbol == sym) with
  | none => none
  | some s => maxDate (db.prices.filter (fun r => r.stockId == s.id))

/-- Order on optional watermarks: an absent watermark is below
everything; a present one must stay present and not decrease. -/
def wmLE : Option Nat → Option Nat → Prop
  | none, _ => True
  | some x, b => ∃ y, b = some y ∧ x ≤ y

/- ------------------------------------------------------------------ -/
/- Upstream fetch strategy chain (`_fetch_history`)                    -/
/- ------------------------------------------------------------------ -/

/-- The request shapes `_fetch_history` can try, in source order:
`t.history(start=..., end=now)`, `t.history(period="5d")`,
`t.history(period="1mo")`, `yf.download(symbol, period="5d")`. -/
inductive Strat
  | range
  | win5d
  | win1mo
  | download
  deriving DecidableEq, Repr

/-- `df is not None and not df.empty`. -/
def nonEmpty (r : Option (List FetchRow)) : Bool :=
  match r with
  | none => false
  | some rs => !rs.isEmpty

/-- The tail of `_fetch_history` after the optional explicit-range
strategy: the `for period in ["5d", "1mo"]` loop, then the
`yf.download` fallback, then `return None`. `pre` accumulates the
strategies already attempted; each result is delivered through the
backoff executor, abstracted as the oracle `env`. -/
def chainFrom5d (env : Strat → Option (List FetchRow)) (pre : List Strat) :
    Option (List FetchRow) × List Strat :=
  let d2 := env .win5d
  if nonEmpty d2 then (d2, pre ++ [.win5d])
  else
    let d3 := env .win1mo
    if nonEmpty d3 then (d3, pre ++ [.win5d, .win1mo])
    else
      let d4 := env .download
      if nonEmpty d4 then (d4, pre ++ [.win5d, .win1mo, .download])
      else (none, pre ++ [.win5d, .win1mo, .download])

/-- `_fetch_history(symbol, start_date)`: when a start date is given,
first try the explicit `[start_date, now]` range; then the shorter and
longer windows and the alternate entry point, returning the first
non-empty frame, or `none` when every strategy is exhausted.  Also
returns the list of strategies that were actually attempted. -/
def fetchHistory (startDate : Option Nat)
    (env : Strat → Option (List FetchRow)) :
    Option (List FetchRow) × List Strat :=
  match startDate with
  | some _ =>
    let d1 := env .range
    if nonEmpty d1 then (d1, [.range]) else chainFrom5d env [.range]
  | none => chainFrom5d env []

/-- The order in which `_fetch_history` consults the strategies. -/
def strategyOrder (startDate : Option Nat) : List Strat :=
  (if startDate.isSome then [.range] else []) ++ [.win5d, .win1mo, .download]

/-- Reference runner: the result of the first strategy in `order` whose
result is non-empty (written from the spec's contract, for comparison
with `fetchHistory`). -/
def firstNonEmpty (env : Strat → Option (List FetchRow)) :
    List Strat → Option (List FetchRow)
  | [] => none
  | s :: ss => if nonEmpty (env s) then env s else firstNonEmpty env ss

/-- Reference attempt trace: every strategy up to and including the
first one with a non-empty result (all of them when none succeeds). -/
def attemptedList (env : Strat → Option (List FetchRow)) :
    List Strat → List Strat
  | [] => []
  | s :: ss => if nonEmpty (env s) then [s] else s :: attemptedList env ss

/- ------------------------------------------------------------------ -/
/- Synchronizer (`refresh_symbol`)                                     -/
/- ------------------------------------------------------------------ -/

/-- The dict returned by `refresh_symbol`. `latest` keeps the date value
whose string representation the code returns (`none` for Python `None`);
`rowsAdded` is present only on the success path. -/
structure RefreshResult where
  updated : Bool
  reason : String
  latest : Option Nat
  rowsAdded : Option Nat
  deriving DecidableEq, Repr

/-- The retry loop of `refresh_symbol`: up to `rem` calls of
`_fetch_history` (attempt index `i`), breaking at the first result that
is neither `None` nor empty; `none` when every attempt came back
`None`/empty.  `fetchA i` abstracts the value of
`_fetch_history(symbol, start)` on attempt `i`. -/
def retryFetch (fetchA : Nat → Option (List FetchRow)) :
    Nat → Nat → Option (List FetchRow)
  | _, 0 => none
  | i, rem + 1 =>
    match fetchA i with
    | some rs => if rs.isEmpty then retryFetch fetchA (i + 1) rem else some rs
    | none => retryFetch fetchA (i + 1) rem

/-- The body of `refresh_symbol` after the up-to-date check, given the
watermark `latestBefore` read before fetching. -/
def refreshFetchAndStore (sym : String)
    (fetchA : Nat → Option (List FetchRow)) (maxRetries : Nat)
    (latestBefore : Option Nat) (db : DB) : DB × RefreshResult :=
  match retryFetch fetchA 0 maxRetries with
  | none => (db, ⟨false, "fetch_failed_after_retries", latestBefore, none⟩)
  | some rows =>
    let db' := storeHistory sym sym rows db
    let latestAfter := getLatestDate sym db'
    let updated :=
      match latestAfter, latestBefore with
      | none, _ => false
      | some _, none => true
      | some a, some b => decide (b < a)
    (db', ⟨updated, if updated then "ok" else "no_new_rows", latestAfter,
      some rows.length⟩)

/-- `refresh_symbol(symbol, conn, max_retries=2)`: uppercase the symbol,
read the watermark; when a watermark exists and `watermark + 1 > today`
report `up_to_date` without fetching; otherwise run the fetch retry
loop, store a non-empty result (with `company_name := symbol`) and
recompute the watermark, or report `fetch_failed_after_retries` carrying
the prior watermark.  Returns the store after the call together with the
result dict.  The fetch oracle `fetchA start i` stands for the value of
`_fetch_history(symbol, start)` on retry attempt `i` (`none` = `None`). -/
def refreshSymbol (sym0 : String)
    (fetchA : Option Nat → Nat → Option (List FetchRow)) (today : Nat)
    (db : DB) (maxRetries : Nat := 2) : DB × RefreshResult :=
  let sym := upperStr sym0
  let latestBefore := getLatestDate sym db
  match latestBefore with
  | some l =>
    if l + 1 > today then (db, ⟨false, "up_to_date", some l, none⟩)
    else refreshFetchAndStore sym (fetchA (some (l + 1))) maxRetries
      (some l) db
  | none => refreshFetchAndStore sym (fetchA none) maxRetries none db

/- ------------------------------------------------------------------ -/
/- Read path: `query_stock_data`, `get_live_info`, endpoints           -/
/- ------------------------------------------------------------------ -/

/-- Does `needle` occur at the head of `hay`? -/
def leadsList : List Char → List Char → Bool
  | [], _ => true
  | _ :: _, [] => false
  | n :: ns, h :: hs => n == h && leadsList ns hs

/-- Does `needle` occur anywhere inside `hay`? -/
def containsSub (hay needle : List Char) : Bool :=
  match hay with
  | [] => needle.isEmpty
  | _ :: hs => leadsList needle hay || containsSub hs needle

/-- `column ILIKE %term%`: case-insensitive containment (the pattern
metacharacters `%`/`_` inside `term` itself are not modelled). -/
def ilike (hay term : String) : Bool :=
  containsSub (upperStr hay).toList (upperStr term).toList

/-- Insert a price row into a list kept in `ORDER BY date DESC` order. -/
def insertByDateDesc (r : PriceRow) : List PriceRow → List PriceRow
  | [] => [r]
  | x :: xs =>
    if x.date ≤ r.date then r :: x :: xs else x :: insertByDateDesc r xs

/-- `ORDER BY date DESC` over a row list. -/
def sortByDateDesc (l : List PriceRow) : List PriceRow :=
  l.foldr insertByDateDesc []

/-- A price record as serialized by `query_stock_data` (the row minus
the internal `stock_id`). -/
structure ApiRow where
  date : Nat
  openP : Rat
  highP : Rat
  lowP : Rat
  closeP : Rat
  volume : Int
  deriving DecidableEq, Repr

/-- Forget the `stock_id` column for serialization. -/
def toApiRow (r : PriceRow) : ApiRow :=
  ⟨r.date, r.openP, r.highP, r.lowP, r.closeP, r.volume⟩

/-- The `live_info` dict built by `get_live_info`: `marketCap` and
`previousClose` are hard-coded `None` and `source` is hard-coded
`"database"`. -/
structure LiveInfo where
  currentPrice : Option Rat
  dayHigh : Option Rat
  dayLow : Option Rat
  marketCap : Option Rat
  previousClose : Option Rat
  source : String
  deriving DecidableEq, Repr

/-- The response body of `query_stock_data`, with the `live_info` field
`get_stock` may attach afterwards. -/
structure StockData where
  symbol : String
  companyName : String
  prices : List ApiRow
  liveInfo : Option LiveInfo
  deriving DecidableEq, Repr

/-- `query_stock_data(search_term, conn)`: find the first stock whose
symbol or company name matches `ILIKE %term%`; absent `None` when there
is none; otherwise serve its price rows with `date <= today`,
`ORDER BY date DESC LIMIT 365` (no `live_info` yet). -/
def queryStockData (term : String) (today : Nat) (db : DB) :
    Option StockData :=
  match db.stocks.find? (fun s => ilike s.symbol term
      || ilike s.companyName term) with
  | none => none
  | some s =>
    let rows := sortByDateDesc (db.prices.filter
      (fun r => r.stockId == s.id && r.date ≤ today))
    some ⟨s.symbol, s.companyName, (rows.take 365).map toApiRow, none⟩

/-- The joined row `SELECT sp.close, sp.high, sp.low, s.company_name
FROM stock_prices sp JOIN stocks s ON s.id = sp.stock_id
WHERE s.symbol = sym`, keeping the date for the `ORDER BY`. -/
def liveJoinRows (symU : String) (db : DB) :
    List (Nat × Rat × Rat × Rat × String) :=
  (db.stocks.filter (fun s => s.symbol == symU)).flatMap (fun s =>
    (db.prices.filter (fun r => r.stockId == s.id)).map (fun r =>
      (r.date, r.closeP, r.highP, r.lowP, s.companyName)))

/-- Keep the later-dated of two joined rows (the fold step realizing
`ORDER BY sp.date DESC LIMIT 1`). -/
def pickLater (acc : Option (Nat × Rat × Rat × Rat × String))
    (r : Nat × Rat × Rat × Rat × String) :
    Option (Nat × Rat × Rat × Rat × String) :=
  match acc with
  | none => some r
  | some a => if a.1 < r.1 then some r else some a

/-- `ORDER BY sp.date DESC LIMIT 1` over the joined rows. -/
def latestLiveRecord (symU : String) (db : DB) :
    Option (Nat × Rat × Rat × Rat × String) :=
  (liveJoinRows symU db).foldl pickLater none

/-- `float(x) if x else None`: a SQL `NULL`/zero NUMERIC is reported as
`None` (`0` is falsy in Python). -/
def floatOrNone (x : Rat) : Option Rat := if x == 0 then none else some x

/-- `get_live_info(symbol, conn)`: uppercase the symbol, read the single
most recent stored price row; absent when there is none; otherwise a
dict derived only from that row, with `marketCap = None`,
`previousClose = None`, `source = "database"` — no upstream call. -/
def getLiveInfo (symbol : String) (db : DB) : Option LiveInfo :=
  match latestLiveRecord (upperStr symbol) db with
  | none => none
  | some rec =>
    some ⟨floatOrNone rec.2.1, floatOrNone rec.2.2.1,
      floatOrNone rec.2.2.2.1, none, none, "database"⟩

/-- `GET /api/live/{symbol}`: serve `get_live_info(symbol.upper())` or a
404 when the database holds nothing for the symbol. -/
def liveEndpoint (symbol : String) (db : DB) :
    Except Nat (String × LiveInfo) :=
  match getLiveInfo (upperStr symbol) db with
  | some info => .ok (upperStr symbol, info)
  | none => .error 404

/-- `GET /api/stocks/{term}?refresh=...`: look the term up; 404 when no
stock matches; when `refresh` is set, run `refresh_symbol` and re-query
(an unhandled `TypeError` — modelled as a 500 — would follow if the
re-query found nothing); attach the database-driven `live_info`.
Returns the response together with the store after the call. -/
def getStock (term : String) (refresh : Bool)
    (fetchA : Option Nat → Nat → Option (List FetchRow)) (today : Nat)
    (db : DB) : Except Nat StockData × DB :=
  match queryStockData term today db with
  | none => (.error 404, db)
  | some data0 =>
    let db1 := if refresh then (refreshSymbol data0.symbol fetchA today db).1
      else db
    let data1 := if refresh then queryStockData term today db1 else some data0
    match data1 with
    | none => (.error 500, db1)
    | some d =>
      (.ok { d with liveInfo := getLiveInfo d.symbol db1 }, db1)

/- ------------------------------------------------------------------ -/
/- Staleness (`/internal/stale` and the spec's §4.6 policy)            -/
/- ------------------------------------------------------------------ -/

/-- The per-symbol condition of `GET /internal/stale`:
`COALESCE(m.max_date, '1970-01-01') < today` where `m.max_date` is the
symbol's watermark (1970-01-01 is epoch day 0). -/
def staleSymbolsJudgesStale (maxDateOf : Option Nat) (today : Nat) : Bool :=
  decide (maxDateOf.getD (toEpochDay 1970 1 1) < today)

/-- Insert into a string list kept in ascending order. -/
def insertStr (x : String) : List String → List String
  | [] => [x]
  | y :: ys => if x ≤ y then x :: y :: ys else y :: insertStr x ys

/-- `ORDER BY s.symbol` (insertion sort). -/
def sortStrings : List String → List String
  | [] => []
  | x :: xs => insertStr x (sortStrings xs)

/-- `GET /internal/stale`: the symbols whose watermark (or 1970-01-01
when they have no rows) is before `today`, in symbol order (the
`LIMIT 500` is not modelled). -/
def listStaleSymbols (db : DB) (today : Nat) : List String :=
  sortStrings ((db.stocks.filter (fun s => staleSymbolsJudgesStale
      (maxDate (db.prices.filter (fun r => r.stockId == s.id))) today)).map
    (fun s => s.symbol))

/-- Modelled from the spec: §4.6's `isStale(watermark, today)` as the
spec words it — stale only if `watermark < today` AND `today` is a
trading weekday (Mon-Fri).  This definition follows the SPECIFICATION,
not the source, and exists to be compared against the code's staleness
decisions (`refreshSymbol` / `staleSymbolsJudgesStale`), which contain
no weekday test. -/
def spec_isStale (watermark today : Nat) : Bool :=
  decide (watermark < today) && isTradingWeekday today

/- Sanity examples (dates). -/
example : toEpochDay 1970 1 1 = 0 := by decide
example : toEpochDay 2024 3 1 = 19783 := by decide
example : pythonWeekday (toEpochDay 2024 3 1) = 4 := by decide
example : pythonWeekday (toEpochDay 2024 3 2) = 5 := by decide
example : pythonWeekday (toEpochDay 2024 3 4) = 0 := by decide

/- ------------------------------------------------------------------ -/
/- Helper lemmas                                                       -/
/- ------------------------------------------------------------------ -/

/-- Behaviour of one backoff loop run when every attempt of the wrapped
operation raises: no result, `rem` invocations, and the geometric sleep
schedule `base * 2^(i+j)` between consecutive attempts. -/
lemma withBackoffAux_fail (op : Nat → Option α) (base : Rat)
    (hFail : ∀ i, op i = none) :
    ∀ rem i, withBackoffAux op base i rem =
      (none, rem, (List.range (rem - 1)).map (fun j => base * 2 ^ (i + j))) := by
  intro rem
  induction rem with
  | zero => intro i; simp [withBackoffAux]
  | succ m ih =>
    intro i
    rw [withBackoffAux, hFail i]
    rcases Nat.eq_zero_or_pos m with hm | hm
    · subst hm; simp
    · obtain ⟨k, rfl⟩ := Nat.exists_eq_succ_of_ne_zero (Nat.pos_iff_ne_zero.mp hm)
      simp only [Nat.succ_ne_zero, if_false, ih (i + 1)]
      refine Prod.ext rfl (Prod.ext rfl ?_)
      simp only [Nat.add_sub_cancel, List.range_succ_eq_map, List.map_cons,
        List.map_map]
      refine congrArg₂ _ (by rw [Nat.add_zero]) ?_
      exact List.map_congr_left (fun j _ => by
        simp only [Function.comp_apply]
        rw [show i + Nat.succ j = i + 1 + j by omega])

/-- C3 helper: `firstNonEmpty` over a list of all-empty strategies. -/
lemma firstNonEmpty_all_empty (env : Strat → Option (List FetchRow))
    (h : ∀ s, nonEmpty (env s) = false) :
    ∀ l, firstNonEmpty env l = none := by
  intro l
  induction l with
  | nil => rfl
  | cons s ss ih => simp [firstNonEmpty, h s, ih]

/-- The tail of the strategy chain agrees with the reference
first-non-empty runner on the last three strategies. -/
lemma chainFrom5d_spec (env : Strat → Option (List FetchRow))
    (pre : List Strat) :
    (chainFrom5d env pre).1
        = firstNonEmpty env [.win5d, .win1mo, .download] ∧
      (chainFrom5d env pre).2
        = pre ++ attemptedList env [.win5d, .win1mo, .download] := by
  simp only [chainFrom5d, firstNonEmpty, attemptedList]
  cases h2 : nonEmpty (env .win5d) <;>
    cases h3 : nonEmpty (env .win1mo) <;>
      cases h4 : nonEmpty (env .download) <;>
        simp [h2, h3, h4]

/-- Key presence after one insert-if-absent. -/
lemma hasKey_insertIfAbsent (l : List PriceRow) (r : PriceRow)
    (k : Nat × Nat) :
    hasKey (insertIfAbsent l r) k = (hasKey l k || (keyOf r == k)) := by
  unfold insertIfAbsent
  split
  · rename_i h
    by_cases hrk : (keyOf r == k) = true
    · rw [show k = keyOf r from (beq_iff_eq.mp hrk).symm]
      simp [h]
    · simp [Bool.eq_false_iff.mpr hrk]
  · simp [hasKey, List.any_append]

/-- Key presence after a bulk insert. -/
lemma hasKey_insertRows (rows : List PriceRow) (l : List PriceRow)
    (k : Nat × Nat) :
    hasKey (insertRows l rows) k
      = (hasKey l k || rows.any (fun r => keyOf r == k)) := by
  induction rows generalizing l with
  | nil => simp [insertRows]
  | cons r rs ih =>
    show hasKey (insertRows (insertIfAbsent l r) rs) k = _
    rw [ih, hasKey_insertIfAbsent]
    simp [Bool.or_assoc]

/-- Insert-if-absent is a no-op on a present key. -/
lemma insertIfAbsent_of_hasKey (l : List PriceRow) (r : PriceRow)
    (h : hasKey l (keyOf r) = true) : insertIfAbsent l r = l := by
  simp [insertIfAbsent, h]

/-- A bulk insert whose every key is already present is a no-op. -/
lemma insertRows_of_all_present (rows : List PriceRow) (l : List PriceRow)
    (h : ∀ r ∈ rows, hasKey l (keyOf r) = true) : insertRows l rows = l := by
  induction rows generalizing l with
  | nil => rfl
  | cons r rs ih =>
    show insertRows (insertIfAbsent l r) rs = l
    rw [insertIfAbsent_of_hasKey l r (h r (List.mem_cons_self r rs))]
    exact ih l (fun r' hr' => h r' (List.mem_cons_of_mem r hr'))

/-- After a bulk insert every inserted key is present. -/
lemma hasKey_insertRows_self (rows : List PriceRow) (l : List PriceRow)
    (r : PriceRow) (hr : r ∈ rows) :
    hasKey (insertRows l rows) (keyOf r) = true := by
  rw [hasKey_insertRows]
  have : rows.any (fun r' => keyOf r' == keyOf r) = true :=
    List.any_eq_true.mpr ⟨r, hr, beq_self_eq_true _⟩
  simp [this]

/-- Bulk insert-if-absent is idempotent. -/
lemma insertRows_idem (rows : List PriceRow) (l : List PriceRow) :
    insertRows (insertRows l rows) rows = insertRows l rows :=
  insertRows_of_all_present rows _
    (fun r hr => hasKey_insertRows_self rows l r hr)

/-- After an upsert, every row carrying the upserted symbol carries the
upserted name. -/
lemma upsertStock_name (stocks : List Stock) (sym name : String) :
    ∀ t ∈ (upsertStock stocks sym name).1, t.symbol = sym →
      t.companyName = name := by
  intro t ht hsym
  unfold upsertStock at ht
  split at ht
  · rename_i s hfind
    obtain ⟨t0, ht0, hmap⟩ := List.mem_map.mp ht
    by_cases h0 : (t0.symbol == sym) = true
    · rw [if_pos h0] at hmap
      rw [← hmap]
    · rw [if_neg h0] at hmap
      exact absurd (beq_iff_eq.mpr (hmap ▸ hsym)) h0
  · rename_i hfind
    rcases List.mem_append.mp ht with hmem | hmem
    · have := List.find?_eq_none.mp hfind t hmem
      exact absurd (beq_iff_eq.mpr hsym) this
    · rw [List.mem_singleton.mp hmem]

/-- Looking the upserted symbol up after an upsert yields exactly the
upserted row, carrying the returned id. -/
lemma upsertStock_find (stocks : List Stock) (sym name : String) :
    (upsertStock stocks sym name).1.find? (fun s => s.symbol == sym)
      = some ⟨(upsertStock stocks sym name).2, sym, name⟩ := by
  unfold upsertStock
  split
  · rename_i s hfind
    have hps : (s.symbol == sym) = true := by
      simpa using List.find?_some hfind
    have hpf : (fun t : Stock => t.symbol == sym)
        ∘ (fun t : Stock => if (t.symbol == sym) = true then
            { t with companyName := name } else t)
        = fun t : Stock => t.symbol == sym := by
      funext t
      by_cases h0 : (t.symbol == sym) = true <;> simp [Function.comp, h0]
    rw [List.find?_map, hpf, hfind]
    have hssym : s.symbol = sym := beq_iff_eq.mp hps
    cases s
    simp_all
  · rename_i hfind
    rw [List.find?_append, hfind]
    simp

/-- The upsert of the stock row is idempotent and returns a stable id. -/
lemma upsertStock_idem (stocks : List Stock) (sym name : String) :
    upsertStock (upsertStock stocks sym name).1 sym name
      = upsertStock stocks sym name := by
  set u := upsertStock stocks sym name with hu
  have hfind : u.1.find? (fun s => s.symbol == sym)
      = some ⟨u.2, sym, name⟩ := by
    rw [hu]; exact upsertStock_find stocks sym name
  have hname : ∀ t ∈ u.1, t.symbol = sym → t.companyName = name := by
    rw [hu]; exact upsertStock_name stocks sym name
  unfold upsertStock
  rw [hfind]
  refine Prod.ext ?_ rfl
  show u.1.map (fun t => if (t.symbol == sym) = true then
      { t with companyName := name } else t) = u.1
  have hmap : ∀ t ∈ u.1,
      (if (t.symbol == sym) = true then { t with companyName := name }
        else t) = t := by
    intro t ht
    by_cases h0 : (t.symbol == sym) = true
    · rw [if_pos h0]
      have := hname t ht (beq_iff_eq.mp h0)
      cases t
      simp_all
    · rw [if_neg h0]
  calc u.1.map _ = u.1.map id := List.map_congr_left hmap
    _ = u.1 := List.map_id _

/-- An existing row under a key survives one insert-if-absent. -/
lemma lookupKey_insertIfAbsent (l : List PriceRow) (r : PriceRow)
    (k : Nat × Nat) (v : PriceRow) (h : lookupKey l k = some v) :
    lookupKey (insertIfAbsent l r) k = some v := by
  unfold insertIfAbsent
  split
  · exact h
  · unfold lookupKey at h ⊢
    rw [List.find?_append, h]
    rfl

/-- An existing row under a key survives a bulk insert: the merge never
overwrites it. -/
lemma lookupKey_insertRows (rows : List PriceRow) (l : List PriceRow)
    (k : Nat × Nat) (v : PriceRow) (h : lookupKey l k = some v) :
    lookupKey (insertRows l rows) k = some v := by
  induction rows generalizing l with
  | nil => exact h
  | cons r rs ih =>
    exact ih (insertIfAbsent l r) (lookupKey_insertIfAbsent l r k v h)

/-- An absent key has no rows. -/
lemma countKey_eq_zero (l : List PriceRow) (k : Nat × Nat)
    (h : hasKey l k = false) : countKey l k = 0 := by
  unfold hasKey at h
  unfold countKey
  rw [List.filter_eq_nil_iff.mpr (by simpa using List.any_eq_false.mp h)]
  rfl

/-- One insert-if-absent never pushes a key's multiplicity above
`max (previous multiplicity) 1`. -/
lemma countKey_insertIfAbsent (l : List PriceRow) (r : PriceRow)
    (k : Nat × Nat) :
    countKey (insertIfAbsent l r) k ≤ max (countKey l k) 1 := by
  unfold insertIfAbsent
  split
  · exact le_max_left _ _
  · rename_i h
    unfold countKey
    rw [List.filter_append, List.length_append]
    by_cases hrk : (keyOf r == k) = true
    · have hk0 : countKey l k = 0 := by
        refine countKey_eq_zero l k ?_
        rw [show k = keyOf r from (beq_iff_eq.mp hrk).symm]
        exact Bool.eq_false_iff.mpr (fun hc => by rw [hc] at h; exact h rfl)
      unfold countKey at hk0
      simp [hk0, List.filter, hrk]
    · simp [List.filter, Bool.eq_false_iff.mpr hrk]

/-- A bulk insert never pushes a key's multiplicity above
`max (previous multiplicity) 1`: a merge never duplicates a row. -/
lemma countKey_insertRows (rows : List PriceRow) (l : List PriceRow)
    (k : Nat × Nat) :
    countKey (insertRows l rows) k ≤ max (countKey l k) 1 := by
  induction rows generalizing l with
  | nil => exact le_max_left _ _
  | cons r rs ih =>
    calc countKey (insertRows (insertIfAbsent l r) rs) k
        ≤ max (countKey (insertIfAbsent l r) k) 1 := ih _
      _ ≤ max (max (countKey l k) 1) 1 :=
          max_le_max_right 1 (countKey_insertIfAbsent l r k)
      _ = max (countKey l k) 1 := by rw [max_assoc, max_self]

/-- A bulk insert only appends rows, and appends only rows drawn from
its input list. -/
lemma insertRows_append_ext (rows : List PriceRow) (l : List PriceRow) :
    ∃ ext, insertRows l rows = l ++ ext ∧ ∀ r ∈ ext, r ∈ rows := by
  induction rows generalizing l with
  | nil => exact ⟨[], by simp [insertRows]⟩
  | cons r rs ih =>
    show ∃ ext, insertRows (insertIfAbsent l r) rs = l ++ ext ∧
      ∀ x ∈ ext, x ∈ r :: rs
    by_cases hk : hasKey l (keyOf r) = true
    · rw [insertIfAbsent_of_hasKey l r hk]
      obtain ⟨ext', hext', hmem'⟩ := ih l
      exact ⟨ext', hext', fun x hx => List.mem_cons_of_mem r (hmem' x hx)⟩
    · rw [show insertIfAbsent l r = l ++ [r] from by
        simp [insertIfAbsent, hk]]
      obtain ⟨ext', hext', hmem'⟩ := ih (l ++ [r])
      refine ⟨r :: ext', ?_, fun x hx => ?_⟩
      · rw [hext']; simp
      · rcases List.mem_cons.mp hx with hx | hx
        · exact hx ▸ List.mem_cons_self r rs
        · exact List.mem_cons_of_mem r (hmem' x hx)

/- ------------------------------------------------------------------ -/
/- C3, C7: backoff executor                                            -/
/- ------------------------------------------------------------------ -/

/-- C3: the backoff executor performs exactly `maxAttempts` total
invocations of the wrapped operation, never `maxAttempts + 1`: for every
operation that fails on every call and every `retries = n ≥ 1`,
`_with_backoff(fn, retries=n)` invokes the operation exactly `n` times. -/
theorem backoff_exact_attempt_count (op : Nat → Option α) (n : Nat)
    (base : Rat) (h1 : 1 ≤ n) (hFail : ∀ i, op i = none) :
    (withBackoff op n base).2.1 = n := by
  rw [withBackoff, withBackoffAux_fail op base hFail n 0]

/-- C3 witness: with `retries = 3`, an always-failing operation is
invoked exactly 3 times. -/
theorem backoff_exact_attempt_count_witness :
    (withBackoff (fun _ => (none : Option Unit)) 3 1).2.1 = 3 :=
  backoff_exact_attempt_count (fun _ => none) 3 1 (by decide) (fun _ => rfl)

/-- C7: the backoff executor never raises: when the operation fails on
each of the `n` attempts, `_with_backoff` returns the failure value
`None` to its caller (instead of propagating the exception), and between
consecutive attempts it sleeps `base * 2^attemptIndex`
(`base * 2^0, …, base * 2^(n-2)`). -/
theorem backoff_never_raises (op : Nat → Option α) (n : Nat) (base : Rat)
    (h1 : 1 ≤ n) (hFail : ∀ i, op i = none) :
    (withBackoff op n base).1 = none ∧
      (withBackoff op n base).2.2
        = (List.range (n - 1)).map (fun i => base * 2 ^ i) := by
  rw [withBackoff, withBackoffAux_fail op base hFail n 0]
  exact ⟨rfl, by simp⟩

/-- C7 witness: with 3 attempts and `base = 1`, an always-failing
operation yields `none` (no exception escapes) after sleeping 1 s and
then 2 s. -/
theorem backoff_never_raises_witness :
    (withBackoff (fun _ => (none : Option Nat)) 3 1).1 = none ∧
      (withBackoff (fun _ => (none : Option Nat)) 3 1).2.2 = [1, 2] := by
  have h := backoff_never_raises (fun _ => (none : Option Nat)) 3 1
    (by decide) (fun _ => rfl)
  exact ⟨h.1, by rw [h.2]; norm_num [List.range_succ]⟩

/- ------------------------------------------------------------------ -/
/- C4: fetch strategy chain                                            -/
/- ------------------------------------------------------------------ -/

/-- C4: `_fetch_history` consults the strategies in the fixed order
(explicit range when a start date is given, then the 5-day window, the
1-month window, and `yf.download`), returns the result of the first
strategy with a non-empty row set, attempts exactly the strategies up to
and including that one, and returns `none` (not an error) when every
strategy yields nothing. -/
theorem fetch_chain_first_success (startDate : Option Nat)
    (env : Strat → Option (List FetchRow)) :
    (fetchHistory startDate env).1 = firstNonEmpty env (strategyOrder startDate) ∧
      (fetchHistory startDate env).2 = attemptedList env (strategyOrder startDate) ∧
      ((∀ s, nonEmpty (env s) = false) → (fetchHistory startDate env).1 = none) := by
  have hchain := chainFrom5d_spec env
  have hmain : (fetchHistory startDate env).1
        = firstNonEmpty env (strategyOrder startDate) ∧
      (fetchHistory startDate env).2
        = attemptedList env (strategyOrder startDate) := by
    cases startDate with
    | none =>
      simpa [fetchHistory, strategyOrder] using hchain []
    | some d =>
      have hf : fetchHistory (some d) env
          = if nonEmpty (env .range) then (env .range, [.range])
            else chainFrom5d env [.range] := rfl
      cases h1 : nonEmpty (env Strat.range) with
      | true =>
        rw [hf, h1]
        simp [strategyOrder, firstNonEmpty, attemptedList, h1]
      | false =>
        rw [hf, h1]
        simp only [Bool.false_eq_true, if_false]
        constructor
        · rw [(hchain [Strat.range]).1]
          simp [strategyOrder, firstNonEmpty, h1]
        · rw [(hchain [Strat.range]).2]
          simp [strategyOrder, attemptedList, h1]
  refine ⟨hmain.1, hmain.2, fun hall => ?_⟩
  rw [hmain.1]
  exact firstNonEmpty_all_empty env hall _

/-- C4 witness: with a start date, an environment whose range strategy
fails and whose 5-day strategy succeeds makes the chain return the
5-day rows after attempting exactly range then 5-day; the all-empty
environment makes it return `none`. -/
theorem fetch_chain_first_success_witness :
    (fetchHistory (some 5)
        (fun s => if s = Strat.win5d then some [⟨6, 1, 1, 1, 1, some 3⟩]
          else none)).1 = some [⟨6, 1, 1, 1, 1, some 3⟩] ∧
      (fetchHistory (some 5)
        (fun s => if s = Strat.win5d then some [⟨6, 1, 1, 1, 1, some 3⟩]
          else none)).2 = [Strat.range, Strat.win5d] ∧
      (fetchHistory none (fun _ => none)).1 = none := by
  refine ⟨?_, ?_, (fetch_chain_first_success none (fun _ => none)).2.2
      (fun s => rfl)⟩
  · rw [(fetch_chain_first_success (some 5) _).1]; decide
  · rw [(fetch_chain_first_success (some 5) _).2.1]; decide

/- ------------------------------------------------------------------ -/
/- C1: idempotent store merge                                          -/
/- ------------------------------------------------------------------ -/

/-- C1: merging fetched price rows into the store is idempotent: running
`_store_history` / `store_stock_data` twice with the same rows leaves
the store in exactly the same state as running it once; an
already-present `(stock_id, date)` row is never overwritten (its lookup
is unchanged) and never duplicated (no key's multiplicity ever exceeds
`max(previous, 1)`). -/
theorem store_merge_idempotent (sym name : String) (rows : List FetchRow)
    (db : DB) :
    storeHistory sym name rows (storeHistory sym name rows db)
        = storeHistory sym name rows db ∧
      (∀ k v, lookupKey db.prices k = some v →
        lookupKey (storeHistory sym name rows db).prices k = some v) ∧
      (∀ k, countKey (storeHistory sym name rows db).prices k
        ≤ max (countKey db.prices k) 1) := by
  by_cases hrows : rows.isEmpty = true
  · refine ⟨by simp [storeHistory, hrows], fun k v h => ?_, fun k => ?_⟩
    · simpa [storeHistory, hrows] using h
    · simp only [storeHistory, hrows, if_pos]
      exact le_max_left _ _
  · have hstep : storeHistory sym name rows db
        = ⟨(upsertStock db.stocks sym name).1,
            insertRows db.prices
              (rows.map (mkPriceRow (upsertStock db.stocks sym name).2))⟩ := by
      rw [storeHistory, if_neg hrows]
    refine ⟨?_, fun k v h => ?_, fun k => ?_⟩
    · rw [hstep, storeHistory, if_neg hrows]
      have hu := upsertStock_idem db.stocks sym name
      simp only
      rw [hu, insertRows_idem]
    · rw [hstep]
      exact lookupKey_insertRows _ _ k v h
    · rw [hstep]
      exact countKey_insertRows _ _ k

/-- C1 witness: a concrete store holding an `(1, 4)` row, merged twice
with one fresh row: the second merge is the identity, the pre-existing
row is untouched, and its key stays unique. -/
theorem store_merge_idempotent_witness :
    storeHistory "AAPL" "Apple" [⟨5, 1, 2, 3, 4, some 10⟩]
        (storeHistory "AAPL" "Apple" [⟨5, 1, 2, 3, 4, some 10⟩]
          ⟨[⟨1, "AAPL", "Apple"⟩], [⟨1, 4, 9, 9, 9, 9, 7⟩]⟩)
      = storeHistory "AAPL" "Apple" [⟨5, 1, 2, 3, 4, some 10⟩]
          ⟨[⟨1, "AAPL", "Apple"⟩], [⟨1, 4, 9, 9, 9, 9, 7⟩]⟩ ∧
    lookupKey (storeHistory "AAPL" "Apple" [⟨5, 1, 2, 3, 4, some 10⟩]
        ⟨[⟨1, "AAPL", "Apple"⟩], [⟨1, 4, 9, 9, 9, 9, 7⟩]⟩).prices (1, 4)
      = some ⟨1, 4, 9, 9, 9, 9, 7⟩ ∧
    countKey (storeHistory "AAPL" "Apple" [⟨5, 1, 2, 3, 4, some 10⟩]
        ⟨[⟨1, "AAPL", "Apple"⟩], [⟨1, 4, 9, 9, 9, 9, 7⟩]⟩).prices (1, 4)
      ≤ max (countKey [⟨1, 4, 9, 9, 9, 9, 7⟩] (1, 4)) 1 := by
  have h := store_merge_idempotent "AAPL" "Apple" [⟨5, 1, 2, 3, 4, some 10⟩]
    ⟨[⟨1, "AAPL", "Apple"⟩], [⟨1, 4, 9, 9, 9, 9, 7⟩]⟩
  exact ⟨h.1, h.2.1 (1, 4) ⟨1, 4, 9, 9, 9, 9, 7⟩ (by decide), h.2.2 (1, 4)⟩

/- ------------------------------------------------------------------ -/
/- C9: NaN volume coercion                                             -/
/- ------------------------------------------------------------------ -/

/-- C9: every row present in the durable store after a merge either was
there before or is the image of a fetched row under `mkPriceRow`, whose
volume is `fr.volume.getD 0`; in particular a NaN/missing volume
(`none`) reaches the store as `0`, and no NaN volume is ever written
(the stored `volume` column is a plain integer by construction). -/
theorem nan_volume_coerced_to_zero (sym name : String)
    (rows : List FetchRow) (db : DB) :
    ∀ r ∈ (storeHistory sym name rows db).prices,
      r ∈ db.prices ∨ ∃ i fr, fr ∈ rows ∧ r = mkPriceRow i fr ∧
        r.volume = fr.volume.getD 0 ∧ (fr.volume = none → r.volume = 0) := by
  intro r hr
  by_cases hrows : rows.isEmpty = true
  · simp only [storeHistory, hrows, if_pos] at hr
    exact Or.inl hr
  · rw [storeHistory, if_neg hrows] at hr
    obtain ⟨ext, hext, hmem⟩ := insertRows_append_ext
      (rows.map (mkPriceRow (upsertStock db.stocks sym name).2)) db.prices
    simp only at hr
    rw [hext] at hr
    rcases List.mem_append.mp hr with h | h
    · exact Or.inl h
    · right
      obtain ⟨fr, hfr, hfr2⟩ := List.mem_map.mp (hmem r h)
      refine ⟨(upsertStock db.stocks sym name).2, fr, hfr, hfr2.symm, ?_, ?_⟩
      · rw [← hfr2]
        rfl
      · intro hn
        rw [← hfr2]
        simp [mkPriceRow, hn]

/-- C9 witness: a fetched row with a NaN volume (`none`) is stored with
volume `0`. -/
theorem nan_volume_coerced_to_zero_witness :
    (⟨1, 5, 1, 1, 1, 1, 0⟩ : PriceRow)
        ∈ (storeHistory "AAPL" "Apple" [⟨5, 1, 1, 1, 1, none⟩]
            ⟨[⟨1, "AAPL", "Apple"⟩], []⟩).prices ∧
      (⟨1, 5, 1, 1, 1, 1, 0⟩ : PriceRow).volume = 0 := by
  have h := nan_volume_coerced_to_zero "AAPL" "Apple"
    [⟨5, 1, 1, 1, 1, none⟩] ⟨[⟨1, "AAPL", "Apple"⟩], []⟩
    ⟨1, 5, 1, 1, 1, 1, 0⟩ (by decide)
  rcases h.resolve_left (by decide) with ⟨i, fr, hfr, heq, hvol, hnan⟩
  have hfr' : fr = ⟨5, 1, 1, 1, 1, none⟩ := List.mem_singleton.mp hfr
  exact ⟨by decide, by rw [heq, hfr']; rfl⟩

/- ------------------------------------------------------------------ -/
/- C8: live quote cache                                                -/
/- ------------------------------------------------------------------ -/

/-- C8: TTL semantics of the live-quote cache: an entry put at `t0` is
returned by `get` at every read time `t` with `t - t0 ≤ ttl` (cache
unchanged); at every read time with `ttl < t - t0` it is treated as
absent and lazily evicted; and `put` overwrites any existing entry for
the symbol unconditionally. -/
theorem cache_ttl_semantics (c : List (String × Rat × α)) (sym : String)
    (d : α) (t0 t ttl : Rat) :
    (t - t0 ≤ ttl →
        cacheGet (cacheSet c sym t0 d) sym t ttl = (some d, cacheSet c sym t0 d)) ∧
      (ttl < t - t0 →
        cacheGet (cacheSet c sym t0 d) sym t ttl
          = (none, c.filter (fun e => !(e.1 == sym)))) ∧
      (cacheSet c sym t0 d).find? (fun e => e.1 == sym) = some (sym, t0, d) := by
  have hfind : (cacheSet c sym t0 d).find? (fun e => e.1 == sym)
      = some (sym, t0, d) := by
    simp [cacheSet]
  refine ⟨fun h => ?_, fun h => ?_, hfind⟩
  · simp [cacheGet, hfind, h]
  · simp only [cacheGet, hfind, if_neg (not_le.mpr h)]
    simp [cacheSet, List.filter_filter]

/-- C8 witness: with a 60-second TTL, an entry put at time 0 is returned
at time 59 and is absent (and evicted) at time 61; the put overwrote the
previous entry for the symbol. -/
theorem cache_ttl_semantics_witness :
    cacheGet (cacheSet ([("A", (0 : Rat), 1)]) "A" 10 (7 : Nat)) "A" 69 60
        = (some 7, cacheSet [("A", (0 : Rat), 1)] "A" 10 7) ∧
      cacheGet (cacheSet ([("A", (0 : Rat), 1)]) "A" 10 (7 : Nat)) "A" 71 60
        = (none, []) ∧
      (cacheSet ([("A", (0 : Rat), 1)]) "A" 10 (7 : Nat)).find?
          (fun e => e.1 == "A") = some ("A", 10, 7) := by
  have h := cache_ttl_semantics [("A", (0 : Rat), (1 : Nat))] "A" 7 10 69 60
  have h' := cache_ttl_semantics [("A", (0 : Rat), (1 : Nat))] "A" 7 10 71 60
  refine ⟨h.1 (by norm_num), ?_, h.2.2⟩
  have := h'.2.1 (by norm_num)
  simpa using this

/- ------------------------------------------------------------------ -/
/- C2: staleness policy                                                -/
/- ------------------------------------------------------------------ -/

/-- Membership is invariant under ordered insertion. -/
lemma mem_insertStr (a x : String) (l : List String) :
    a ∈ insertStr x l ↔ a = x ∨ a ∈ l := by
  induction l with
  | nil => simp [insertStr]
  | cons y ys ih =>
    unfold insertStr
    split
    · simp
    · simp only [List.mem_cons, ih]
      tauto

/-- Membership is invariant under sorting. -/
lemma mem_sortStrings (a : String) (l : List String) :
    a ∈ sortStrings l ↔ a ∈ l := by
  induction l with
  | nil => simp [sortStrings]
  | cons x xs ih =>
    unfold sortStrings
    rw [mem_insertStr, ih]
    simp

/-- C2 counterexample: for watermark 2024-03-01 (a Friday) and today
2024-03-02 (a Saturday), the code's staleness decisions return true,
not false as the claim states: `/internal/stale` lists the symbol and
`refresh_symbol` proceeds to fetch (reporting a failed fetch rather
than `up_to_date`), even though Saturday is not a trading weekday and
the spec's weekday-aware `isStale` is false there. -/
theorem staleness_weekday_counterexample :
    staleSymbolsJudgesStale (some (toEpochDay 2024 3 1))
        (toEpochDay 2024 3 2) = true ∧
      "AAPL" ∈ listStaleSymbols
        ⟨[⟨1, "AAPL", "Apple"⟩], [⟨1, toEpochDay 2024 3 1, 1, 1, 1, 1, 0⟩]⟩
        (toEpochDay 2024 3 2) ∧
      (refreshSymbol "AAPL" (fun _ _ => none) (toEpochDay 2024 3 2)
        ⟨[⟨1, "AAPL", "Apple"⟩],
          [⟨1, toEpochDay 2024 3 1, 1, 1, 1, 1, 0⟩]⟩).2.reason
        = "fetch_failed_after_retries" ∧
      isTradingWeekday (toEpochDay 2024 3 2) = false ∧
      spec_isStale (toEpochDay 2024 3 1) (toEpochDay 2024 3 2) = false := by
  decide

/-- C2 amended: the staleness decision compares dates only and ignores
the weekday entirely: `refresh_symbol` reports `up_to_date` exactly when
`today ≤ watermark`, and `/internal/stale` lists a symbol exactly when
`COALESCE(watermark, 1970-01-01) < today`, on trading and non-trading
days alike. -/
theorem staleness_date_comparison_only (sym : String)
    (fetchA : Option Nat → Nat → Option (List FetchRow)) (today l : Nat)
    (db : DB) (h : getLatestDate (upperStr sym) db = some l) :
    ((refreshSymbol sym fetchA today db).2.reason = "up_to_date"
        ↔ today ≤ l) ∧
      (∀ sym', sym' ∈ listStaleSymbols db today ↔
        ∃ s ∈ db.stocks, s.symbol = sym' ∧
          (maxDate (db.prices.filter (fun r => r.stockId == s.id))).getD 0
            < today) := by
  constructor
  · simp only [refreshSymbol, h]
    by_cases hlt : l + 1 > today
    · simp only [hlt, if_pos]
      constructor
      · intro _; omega
      · intro _; trivial
    · simp only [hlt, if_neg, not_false_iff]
      have hr : ¬((refreshFetchAndStore (upperStr sym)
          (fetchA (some (l + 1))) 2 (some l) db).2.reason = "up_to_date") := by
        unfold refreshFetchAndStore
        cases hrf : retryFetch (fetchA (some (l + 1))) 0 2 with
        | none => simp
        | some rows =>
          simp only
          split <;> simp
      constructor
      · intro hc; exact absurd hc hr
      · intro hc; omega
  · intro sym'
    unfold listStaleSymbols
    rw [mem_sortStrings]
    simp only [List.mem_map, List.mem_filter, staleSymbolsJudgesStale,
      show toEpochDay 1970 1 1 = 0 from rfl, decide_eq_true_eq]
    constructor
    · rintro ⟨s, ⟨hs, hst⟩, hsym⟩
      exact ⟨s, hs, hsym, hst⟩
    · rintro ⟨s, hs, hsym, hst⟩
      exact ⟨s, ⟨hs, hst⟩, hsym⟩

/-- C2 amended witness: for the same watermark 2024-03-01 and today
2024-03-04 (Monday), the refresh path does not report `up_to_date` and
the symbol is listed as stale. -/
theorem staleness_date_comparison_only_witness :
    ¬((refreshSymbol "AAPL" (fun _ _ => none) (toEpochDay 2024 3 4)
        ⟨[⟨1, "AAPL", "Apple"⟩],
          [⟨1, toEpochDay 2024 3 1, 1, 1, 1, 1, 0⟩]⟩).2.reason
        = "up_to_date") ∧
      "AAPL" ∈ listStaleSymbols
        ⟨[⟨1, "AAPL", "Apple"⟩], [⟨1, toEpochDay 2024 3 1, 1, 1, 1, 1, 0⟩]⟩
        (toEpochDay 2024 3 4) := by
  have h := staleness_date_comparison_only "AAPL" (fun _ _ => none)
    (toEpochDay 2024 3 4) (toEpochDay 2024 3 1)
    ⟨[⟨1, "AAPL", "Apple"⟩], [⟨1, toEpochDay 2024 3 1, 1, 1, 1, 1, 0⟩]⟩
    (by decide)
  refine ⟨fun hc => absurd (h.1.mp hc) (by decide), ?_⟩
  exact (h.2 "AAPL").mpr ⟨⟨1, "AAPL", "Apple"⟩, by decide, rfl, by decide⟩

/- ------------------------------------------------------------------ -/
/- C6: watermark monotonicity                                          -/
/- ------------------------------------------------------------------ -/

/-- The watermark order is reflexive. -/
lemma wmLE_refl (a : Option Nat) : wmLE a a := by
  cases a with
  | none => exact trivial
  | some x => exact ⟨x, rfl, le_refl x⟩

/-- Appending rows can only increase (or keep) a `MAX(date)` aggregate. -/
lemma wmLE_maxDate_append (a b : List PriceRow) :
    wmLE (maxDate a) (maxDate (a ++ b)) := by
  induction a with
  | nil => exact trivial
  | cons r rs ih =>
    show wmLE (maxDate (r :: rs)) (maxDate (r :: (rs ++ b)))
    cases h1 : maxDate rs with
    | none =>
      have e0 : maxDate (r :: rs) = some r.date := by simp [maxDate, h1]
      rw [e0]
      cases h2 : maxDate (rs ++ b) with
      | none =>
        refine ⟨r.date, ?_, le_refl _⟩
        simp [maxDate, h2]
      | some m =>
        refine ⟨max r.date m, ?_, le_max_left _ _⟩
        simp [maxDate, h2]
    | some m0 =>
      rw [h1] at ih
      obtain ⟨y, hy, hle⟩ := ih
      have e1 : maxDate (r :: rs) = some (max r.date m0) := by
        simp [maxDate, h1]
      have e2 : maxDate (r :: (rs ++ b)) = some (max r.date y) := by
        simp [maxDate, hy]
      rw [e1]
      exact ⟨max r.date y, e2, max_le_max (le_refl _) hle⟩

/-- When the upserted symbol was already present, the returned id is the
id of its first row. -/
lemma upsertStock_id_of_found (stocks : List Stock) (sym name : String)
    (s : Stock) (hfind : stocks.find? (fun t => t.symbol == sym) = some s) :
    (upsertStock stocks sym name).2 = s.id := by
  unfold upsertStock
  rw [hfind]

/-- A store merge never removes rows and never lowers the merged
symbol's watermark. -/
lemma storeHistory_watermark (sym name : String) (rows : List FetchRow)
    (db : DB) :
    wmLE (getLatestDate sym db)
        (getLatestDate sym (storeHistory sym name rows db)) ∧
      ∃ ext, (storeHistory sym name rows db).prices = db.prices ++ ext := by
  by_cases hrows : rows.isEmpty = true
  · rw [storeHistory, if_pos hrows]
    exact ⟨wmLE_refl _, [], by simp⟩
  · have hstep : storeHistory sym name rows db
        = ⟨(upsertStock db.stocks sym name).1,
            insertRows db.prices
              (rows.map (mkPriceRow (upsertStock db.stocks sym name).2))⟩ := by
      rw [storeHistory, if_neg hrows]
    obtain ⟨ext, hext, _⟩ := insertRows_append_ext
      (rows.map (mkPriceRow (upsertStock db.stocks sym name).2)) db.prices
    refine ⟨?_, ext, by rw [hstep]; exact hext⟩
    rw [hstep]
    cases hfind : db.stocks.find? (fun s => s.symbol == sym) with
    | none =>
      have : getLatestDate sym db = none := by
        unfold getLatestDate; rw [hfind]
      rw [this]
      exact trivial
    | some s =>
      have hL : getLatestDate sym db
          = maxDate (db.prices.filter (fun r => r.stockId == s.id)) := by
        unfold getLatestDate; rw [hfind]
      have hfind2 : (upsertStock db.stocks sym name).1.find?
          (fun t => t.symbol == sym) = some ⟨s.id, sym, name⟩ := by
        rw [upsertStock_find db.stocks sym name,
          upsertStock_id_of_found db.stocks sym name s hfind]
      have hR : getLatestDate sym
            (DB.mk (upsertStock db.stocks sym name).1
              (insertRows db.prices
                (rows.map (mkPriceRow (upsertStock db.stocks sym name).2))))
          = maxDate ((insertRows db.prices
              (rows.map (mkPriceRow (upsertStock db.stocks sym name).2))).filter
              (fun r => r.stockId == s.id)) := by
        unfold getLatestDate
        rw [show (DB.mk (upsertStock db.stocks sym name).1
            (insertRows db.prices
              (rows.map (mkPriceRow (upsertStock db.stocks sym name).2)))).stocks
            = (upsertStock db.stocks sym name).1 from rfl, hfind2]
      rw [hL, hR, hext, List.filter_append]
      exact wmLE_maxDate_append _ _

/-- The fetch-and-store phase of a refresh never removes rows and never
lowers the watermark. -/
lemma refreshFetchAndStore_monotone (sym : String)
    (fA : Nat → Option (List FetchRow)) (mr : Nat) (lb : Option Nat)
    (db : DB) :
    wmLE (getLatestDate sym db)
        (getLatestDate sym (refreshFetchAndStore sym fA mr lb db).1) ∧
      ∃ ext, (refreshFetchAndStore sym fA mr lb db).1.prices
        = db.prices ++ ext := by
  unfold refreshFetchAndStore
  cases retryFetch fA 0 mr with
  | none => exact ⟨wmLE_refl _, [], by simp⟩
  | some rows => exact storeHistory_watermark sym sym rows db

/-- C6: watermark monotonicity: any run of `refresh_symbol` (successful
or not) leaves the symbol's watermark — `MAX(date)` over its stored
price rows — at or above its previous value, and never removes stored
rows (the price table after the run is the old table plus appended
rows). -/
theorem refresh_watermark_monotone (sym : String)
    (fetchA : Option Nat → Nat → Option (List FetchRow)) (today : Nat)
    (db : DB) :
    wmLE (getLatestDate (upperStr sym) db)
        (getLatestDate (upperStr sym) (refreshSymbol sym fetchA today db).1) ∧
      ∃ ext, (refreshSymbol sym fetchA today db).1.prices
        = db.prices ++ ext := by
  simp only [refreshSymbol]
  cases h : getLatestDate (upperStr sym) db with
  | none =>
    have hm := refreshFetchAndStore_monotone (upperStr sym) (fetchA none) 2
      none db
    rw [h] at hm
    exact hm
  | some l =>
    by_cases hlt : l + 1 > today
    · simp only [hlt, if_pos]
      exact ⟨by rw [h]; exact wmLE_refl _, [], by simp⟩
    · simp only [hlt, if_neg, not_false_iff]
      have hm := refreshFetchAndStore_monotone (upperStr sym)
        (fetchA (some (l + 1))) 2 (some l) db
      rw [h] at hm
      exact hm

/- ------------------------------------------------------------------ -/
/- C5: failed refresh still serves stored data                         -/
/- ------------------------------------------------------------------ -/

/-- When every `_fetch_history` attempt comes back `None` or empty, the
retry loop of `refresh_symbol` yields nothing. -/
lemma retryFetch_none (fA : Nat → Option (List FetchRow))
    (h : ∀ i, fA i = none ∨ fA i = some []) :
    ∀ rem i, retryFetch fA i rem = none := by
  intro rem
  induction rem with
  | zero => intro i; rfl
  | succ m ih =>
    intro i
    show (match fA i with
      | some rs => if rs.isEmpty then retryFetch fA (i + 1) m else some rs
      | none => retryFetch fA (i + 1) m) = none
    rcases h i with hi | hi
    · rw [hi]
      exact ih (i + 1)
    · rw [hi]
      simpa using ih (i + 1)

/-- C5: when the fetch for a symbol with stale-but-present stored data
returns empty after all retries, `refresh_symbol` reports a non-updated
outcome with reason `fetch_failed_after_retries` carrying the existing
latest date and leaves the store untouched; `get_stock` with the refresh
flag then answers exactly as it would without refreshing — the
previously stored rows, no error; and any `get_stock` request answers
404 exactly when the term matches no stored stock at all. -/
theorem stale_fetch_fail_serves_stored (term : String)
    (fetchA : Option Nat → Nat → Option (List FetchRow)) (today : Nat)
    (db : DB) (data0 : StockData) (l : Nat)
    (h1 : queryStockData term today db = some data0)
    (h2 : ∀ start i, fetchA start i = none ∨ fetchA start i = some [])
    (h3 : getLatestDate (upperStr data0.symbol) db = some l)
    (h4 : l < today) :
    refreshSymbol data0.symbol fetchA today db
        = (db, ⟨false, "fetch_failed_after_retries", some l, none⟩) ∧
      getStock term true fetchA today db
        = getStock term false fetchA today db ∧
      (getStock term true fetchA today db).1
        = .ok { data0 with liveInfo := getLiveInfo data0.symbol db } ∧
      (∀ tm (d2 : DB), (getStock tm true fetchA today d2).1 = .error 404
        ↔ queryStockData tm today d2 = none) := by
  have hrefresh : refreshSymbol data0.symbol fetchA today db
      = (db, ⟨false, "fetch_failed_after_retries", some l, none⟩) := by
    simp only [refreshSymbol, h3]
    have hlt : ¬(l + 1 > today) := by omega
    simp only [hlt, if_neg, not_false_iff]
    unfold refreshFetchAndStore
    rw [retryFetch_none (fetchA (some (l + 1))) (h2 (some (l + 1))) 2 0]
  have hgs : getStock term true fetchA today db
      = (.ok { data0 with liveInfo := getLiveInfo data0.symbol db }, db) := by
    simp only [getStock, h1, hrefresh, if_true]
  have hgs' : getStock term false fetchA today db
      = (.ok { data0 with liveInfo := getLiveInfo data0.symbol db }, db) := by
    simp [getStock, h1]
  refine ⟨hrefresh, by rw [hgs, hgs'], by rw [hgs], fun tm d2 => ?_⟩
  cases hq : queryStockData tm today d2 with
  | none => simp [getStock, hq]
  | some dd =>
    simp only [getStock, hq, if_true]
    cases hq2 : queryStockData tm today
        (refreshSymbol dd.symbol fetchA today d2).1 with
    | none => simp [hq2]
    | some d3 => simp [hq2]

/-- C5 witness: a store holding one AAPL row dated 19783 with today
19786 and an always-failing fetch: the refresh reports
`fetch_failed_after_retries` with the old latest date, and the refresh
and no-refresh requests answer identically. -/
theorem stale_fetch_fail_serves_stored_witness :
    refreshSymbol "AAPL" (fun _ _ => none) 19786
        ⟨[⟨1, "AAPL", "APPLE"⟩], [⟨1, 19783, 1, 1, 1, 1, 10⟩]⟩
      = (⟨[⟨1, "AAPL", "APPLE"⟩], [⟨1, 19783, 1, 1, 1, 1, 10⟩]⟩,
          ⟨false, "fetch_failed_after_retries", some 19783, none⟩) ∧
      getStock "AAPL" true (fun _ _ => none) 19786
          ⟨[⟨1, "AAPL", "APPLE"⟩], [⟨1, 19783, 1, 1, 1, 1, 10⟩]⟩
        = getStock "AAPL" false (fun _ _ => none) 19786
          ⟨[⟨1, "AAPL", "APPLE"⟩], [⟨1, 19783, 1, 1, 1, 1, 10⟩]⟩ := by
  have h := stale_fetch_fail_serves_stored "AAPL" (fun _ _ => none) 19786
    ⟨[⟨1, "AAPL", "APPLE"⟩], [⟨1, 19783, 1, 1, 1, 1, 10⟩]⟩
    ⟨"AAPL", "APPLE", [⟨19783, 1, 1, 1, 1, 10⟩], none⟩ 19783
    (by decide) (fun _ _ => Or.inl rfl) (by decide) (by decide)
  exact ⟨h.1, h.2.1⟩

/- ------------------------------------------------------------------ -/
/- C10: live view derived from the store only                          -/
/- ------------------------------------------------------------------ -/

/-- The fold step always keeps some row once one is seen. -/
lemma pickLater_some (a r : Nat × Rat × Rat × Rat × String) :
    ∃ b, pickLater (some a) r = some b := by
  show ∃ b, (if a.1 < r.1 then some r else some a) = some b
  split <;> exact ⟨_, rfl⟩

/-- A fold of `pickLater` started on a row keeps some row. -/
lemma foldl_pickLater_some (l : List (Nat × Rat × Rat × Rat × String))
    (a : Nat × Rat × Rat × Rat × String) :
    ∃ b, l.foldl pickLater (some a) = some b := by
  induction l generalizing a with
  | nil => exact ⟨a, rfl⟩
  | cons r rs ih =>
    show ∃ b, rs.foldl pickLater (pickLater (some a) r) = some b
    obtain ⟨c, hc⟩ := pickLater_some a r
    rw [hc]
    exact ih c

/-- The latest joined record is absent exactly when the join is empty. -/
lemma latestLiveRecord_none_iff (symU : String) (db : DB) :
    latestLiveRecord symU db = none ↔ liveJoinRows symU db = [] := by
  unfold latestLiveRecord
  cases hl : liveJoinRows symU db with
  | nil => simp
  | cons r rs =>
    simp only [List.foldl_cons]
    constructor
    · intro hc
      rw [show pickLater none r = some r from rfl] at hc
      obtain ⟨b, hb⟩ := foldl_pickLater_some rs r
      rw [hb] at hc
      cases hc
    · intro hc
      cases hc

/-- C10: the live view is derived solely from the durable store: when
`get_live_info` returns a value its `marketCap` and `previousClose` are
always `None` and its `source` is always `"database"`; it returns absent
exactly when the store joins no price row to the symbol; `/api/live`
answers 404 exactly then; and the result depends only on the most recent
stored row of the symbol. -/
theorem live_view_from_database_only (symbol : String) (db : DB) :
    (∀ v, getLiveInfo symbol db = some v →
        v.marketCap = none ∧ v.previousClose = none ∧ v.source = "database") ∧
      (getLiveInfo symbol db = none ↔ liveJoinRows (upperStr symbol) db = []) ∧
      (liveEndpoint symbol db = .error 404
        ↔ getLiveInfo (upperStr symbol) db = none) ∧
      (∀ db2 : DB, latestLiveRecord (upperStr symbol) db
          = latestLiveRecord (upperStr symbol) db2 →
        getLiveInfo symbol db = getLiveInfo symbol db2) := by
  refine ⟨?_, ?_, ?_, ?_⟩
  · intro v hv
    unfold getLiveInfo at hv
    cases hrec : latestLiveRecord (upperStr symbol) db with
    | none => rw [hrec] at hv; cases hv
    | some rec =>
      rw [hrec] at hv
      obtain rfl := Option.some.inj hv
      exact ⟨rfl, rfl, rfl⟩
  · unfold getLiveInfo
    cases hrec : latestLiveRecord (upperStr symbol) db with
    | none =>
      rw [latestLiveRecord_none_iff] at hrec
      simp [hrec]
    | some rec =>
      constructor
      · intro hc; cases hc
      · intro hj
        have := (latestLiveRecord_none_iff (upperStr symbol) db).mpr hj
        rw [hrec] at this
        cases this
  · unfold liveEndpoint
    cases hli : getLiveInfo (upperStr symbol) db with
    | some info => simp
    | none => simp
  · intro db2 heq
    unfold getLiveInfo
    rw [heq]

/-- C10 witness: an empty store answers 404 on `/api/live`; a store with
one AAPL row yields a live view with `marketCap = None`,
`previousClose = None`, `source = "database"`. -/
theorem live_view_from_database_only_witness :
    liveEndpoint "MSFT" ⟨[], []⟩ = Except.error 404 ∧
      (⟨some 2, some 1, some 1, none, none, "database"⟩ : LiveInfo).marketCap
          = none ∧
      (⟨some 2, some 1, some 1, none, none, "database"⟩ : LiveInfo).previousClose
          = none ∧
      (⟨some 2, some 1, some 1, none, none, "database"⟩ : LiveInfo).source
          = "database" := by
  have h404 := (live_view_from_database_only "MSFT" ⟨[], []⟩).2.2.1.mpr
    (by decide)
  have hv := (live_view_from_database_only "aapl"
      ⟨[⟨1, "AAPL", "Apple"⟩], [⟨1, 5, 1, 1, 1, 2, 9⟩]⟩).1
    ⟨some 2, some 1, some 1, none, none, "database"⟩ (by decide)
  exact ⟨h404, hv.1, hv.2.1, hv.2.2⟩
